/-
Verification of the CSV import / consolidation subsystem of the loan-portal
repository: the record normalizer (DataCleaner), the intra-batch deduplicator,
the conflict-resolving upsert engine (buildUpsertOp), the batch error counters
(processBatch) and the reconciliation rebuilder (rebuild-from-loans route).

The JavaScript source is shallowly embedded: rows, consolidated documents and
loan rows become structures with Option-valued fields (None models both the
JSON null and a missing document field, which the relevant operators, namely
the Mongo ifNull operator and the JS nullish tests, treat alike); epoch
milliseconds become Int; money amounts become Int.  JS truthiness of strings
(empty string is falsy) is modelled explicitly where the source relies on it.
-/
import Mathlib

namespace CsvConsolidation

/-- JS string disjunction `a || b` on nullable strings: the empty string is
falsy, so it falls through to `b`. -/
def jsOrS (a b : Option String) : Option String :=
  match a with
  | some s => if s.isEmpty then b else some s
  | none => b

/-- JS `x || null` on a nullable string: the empty string collapses to null. -/
def optTruthyS (a : Option String) : Option String :=
  match a with
  | some s => if s.isEmpty then none else some s
  | none => none

/-- Canonical record produced by `DataCleaner.mapToClientSchema`, as consumed
by `dedupeByClientKey` and `buildUpsertOp` (src/services/csvImportService.js).
All fields are nullable at the Mongo level. Dates are epoch milliseconds. -/
structure ClientRecord where
  clientKey : Option String
  fullName : Option String
  phone : Option String
  email : Option String
  address : Option String
  dateOfBirth : Option String
  loanStatus : Option String
  isExtended : Option Bool
  statusBucket : Option String
  balance : Option Int
  statementDate : Option Int
deriving Repr, DecidableEq

/-- Truthy client key of a record: the JS guard `if (!r?.clientKey) continue`
drops both a null key and an empty-string key. -/
def keyOf (r : ClientRecord) : Option String :=
  match r.clientKey with
  | some k => if k.isEmpty then none else some k
  | none => none

/-- Date reading used by the deduplicator:
`r.statementDate ? new Date(r.statementDate).getTime() : 0`. -/
def recDate (r : ClientRecord) : Int := r.statementDate.getD 0

/-- Balance reading used by the deduplicator: `r.balance || 0`. -/
def recBalance (r : ClientRecord) : Int := r.balance.getD 0

/-- Replacement test of `dedupeByClientKey`:
`rDate > cDate || (rDate === cDate && (r.balance||0) > (current.balance||0))`. -/
def replaces (r current : ClientRecord) : Bool :=
  decide (recDate current < recDate r) ||
    (decide (recDate r = recDate current) && decide (recBalance current < recBalance r))

/-- Lookup in an insertion-ordered association list (JS `Map.get`). -/
def mapGet {α : Type} : List (String × α) → String → Option α
  | [], _ => none
  | (k, v) :: rest, key => if k = key then some v else mapGet rest key

/-- Update in an insertion-ordered association list (JS `Map.set`): an existing
key keeps its position, a fresh key is appended at the end. -/
def mapSet {α : Type} : List (String × α) → String → α → List (String × α)
  | [], key, v => [(key, v)]
  | (k, w) :: rest, key, v =>
    if k = key then (k, v) :: rest else (k, w) :: mapSet rest key v

/-- One step of the dedup fold over a batch (loop body of
`dedupeByClientKey`): keyless records are skipped; otherwise the record
replaces the kept one for its key when `replaces` holds. -/
def dedupeStep (m : List (String × ClientRecord)) (r : ClientRecord) :
    List (String × ClientRecord) :=
  match keyOf r with
  | none => m
  | some k =>
    match mapGet m k with
    | none => mapSet m k r
    | some current => if replaces r current then mapSet m k r else m

/-- `CSVImportService.dedupeByClientKey`: keep the best/latest record per
clientKey within a batch, in key insertion order (`Array.from(map.values())`). -/
def dedupeByClientKey (records : List ClientRecord) : List ClientRecord :=
  (records.foldl dedupeStep []).map (fun p => p.2)

/-- Stored consolidated client document, as produced by the update pipeline of
`buildUpsertOp`. Every field is nullable (None also models a field the
document never acquired). -/
structure ClientDoc where
  clientKey : Option String
  fullName : Option String
  phone : Option String
  email : Option String
  address : Option String
  dateOfBirth : Option String
  loanStatus : Option String
  isExtended : Option Bool
  statusBucket : Option String
  balance : Option Int
  statementDate : Option Int
  lastImportedAt : Option Int
deriving Repr, DecidableEq

/-- Mongo `$ifNull [x, y]`: `y` when `x` is null or missing. -/
def ifNull {α : Type} (x y : Option α) : Option α :=
  match x with
  | some v => some v
  | none => y

/-- The update pipeline of `CSVImportService.buildUpsertOp`, applied to the
current state `prev` of the document at the incoming record's key (`none` on
upsert-insert, where the pipeline runs on a fresh document holding only the
filter's `clientKey`).  Follows the pipeline stages: `_incomingDate` is
`incoming.statementDate ? new Date(incoming.statementDate) : new Date(0)`,
`_prevDate` is `$ifNull [$statementDate, epoch]`, `_needsUpdate` is
`$gt [_incomingDate, _prevDate]`, then the conditional `$set` per field. -/
def applyUpsert (prev : Option ClientDoc) (incoming : ClientRecord) (now : Int) :
    ClientDoc :=
  let incomingDate : Int := incoming.statementDate.getD 0
  let prevDate : Int := (prev.bind (fun c => c.statementDate)).getD 0
  let needsUpdate : Bool := decide (prevDate < incomingDate)
  { clientKey := incoming.clientKey
    fullName := if needsUpdate then incoming.fullName
      else ifNull (prev.bind (fun c => c.fullName)) incoming.fullName
    phone := if needsUpdate then incoming.phone
      else ifNull (prev.bind (fun c => c.phone)) incoming.phone
    email := if needsUpdate then incoming.email
      else ifNull (prev.bind (fun c => c.email)) incoming.email
    address := if needsUpdate then incoming.address
      else ifNull (prev.bind (fun c => c.address)) incoming.address
    dateOfBirth := if needsUpdate then incoming.dateOfBirth
      else ifNull (prev.bind (fun c => c.dateOfBirth)) incoming.dateOfBirth
    loanStatus := if needsUpdate then incoming.loanStatus
      else prev.bind (fun c => c.loanStatus)
    statusBucket := if needsUpdate then incoming.statusBucket
      else prev.bind (fun c => c.statusBucket)
    isExtended := if needsUpdate then incoming.isExtended
      else prev.bind (fun c => c.isExtended)
    balance := if needsUpdate then incoming.balance
      else prev.bind (fun c => c.balance)
    statementDate := some (if needsUpdate then incomingDate else prevDate)
    lastImportedAt := some now }

/-- Raw CSV row after `DataCleaner.cleanRow` (src/unnamed/part_013): header
variants reconciled, strings trimmed with the empty string turned into null,
money columns coerced to numbers, date columns parsed.  Parsed dates are
carried as epoch milliseconds; the borrower date of birth is carried as its
ISO `yyyy-mm-dd` slice (the only use `makeClientKey` makes of it). -/
structure RawRow where
  fullName : Option String
  borrowerName : Option String
  borrowerMobile : Option String
  borrowerLandline : Option String
  borrowerEmail : Option String
  borrowerAddress : Option String
  borrowerDateOfBirthIso : Option String
  loanStatusName : Option String
  loanStatus : Option String
  clientBalance : Option Int
  outstandingBalance : Option Int
  balance : Option Int
  amortizationDue : Option Int
  totalInterestBalance : Option Int
  penaltyAmount : Option Int
  statementDate : Option Int
  reportDate : Option Int
  asAt : Option Int
  nextDueDate : Option Int
deriving Repr, DecidableEq

/-- Character filter on strings (this toolchain has no String.filter). -/
def strFilter (p : Char → Bool) (s : String) : String :=
  String.mk (s.data.filter p)

/-- ASCII lowercasing, character by character (JS `toLowerCase` on the ASCII
data these rows carry). -/
def lowerStr (s : String) : String :=
  String.mk (s.data.map Char.toLower)

/-- Whitespace trim at both ends (JS `trim`). -/
def trimStr (s : String) : String :=
  String.mk (((s.data.dropWhile Char.isWhitespace).reverse.dropWhile Char.isWhitespace).reverse)

/-- Digits-only reduction of a string, modelling `replace(/\D/g, "")`. -/
def digitsOf (s : String) : String := strFilter Char.isDigit s

/-- `DataCleaner.normalizePhone`: falsy input gives null; otherwise keep the
digits only (`replace(/\D/g, "")`), null when no digit remains.  There is no
leading-zero or country-code canonicalization. -/
def normalizePhone (phone : Option String) : Option String :=
  match phone with
  | none => none
  | some s =>
    if s.isEmpty then none
    else
      let digits := digitsOf s
      if digits.isEmpty then none else some digits

/-- `DataCleaner.normalizeEmail`: falsy input gives null, else trim and
lowercase. -/
def normalizeEmail (email : Option String) : Option String :=
  match email with
  | none => none
  | some s => if s.isEmpty then none else some (lowerStr (trimStr s))

/-- `DataCleaner.makeClientKey`: phone key first, else email key, else the
name plus date-of-birth fallback.  Always returns a string, never null. -/
def makeClientKey (row : RawRow) : String :=
  let email := normalizeEmail row.borrowerEmail
  let phone := normalizePhone (jsOrS row.borrowerMobile row.borrowerLandline)
  match phone with
  | some p => "phone:" ++ p
  | none =>
    match email with
    | some e =>
      if e.isEmpty then
        let name := lowerStr (trimStr ((jsOrS row.fullName row.borrowerName).getD ""))
        let dob := row.borrowerDateOfBirthIso.getD "nodob"
        "name:" ++ name ++ "|dob:" ++ dob
      else "email:" ++ e
    | none =>
      let name := lowerStr (trimStr ((jsOrS row.fullName row.borrowerName).getD ""))
      let dob := row.borrowerDateOfBirthIso.getD "nodob"
      "name:" ++ name ++ "|dob:" ++ dob

/-- Contiguous occurrence test on character lists. -/
def charsInfix (need : List Char) : List Char → Bool
  | [] => need.isEmpty
  | c :: t => need.isPrefixOf (c :: t) || charsInfix need t

/-- Substring test used to model JS `String.prototype.includes`. -/
def strIncludes (s w : String) : Bool := charsInfix w.data s.data

/-- `DataCleaner.classifyStatus`: cleared / extended vocabulary match on the
lowercased status text (`String(raw || "Unknown").toLowerCase()`). -/
def classifyStatus (loanStatusRaw : Option String) : Bool × Bool :=
  let s := lowerStr ((jsOrS loanStatusRaw (some "Unknown")).getD "Unknown")
  let clearedWords := ["cleared", "closed", "paid", "settled", "completed"]
  let extendedWords := ["extended", "rescheduled", "restructured", "rollover"]
  (clearedWords.any (fun w => strIncludes s w),
    extendedWords.any (fun w => strIncludes s w))

/-- JS nullish chain `a ?? b` on nullable numbers. -/
def jsCoalesce (a b : Option Int) : Option Int :=
  match a with
  | some v => some v
  | none => b

/-- `DataCleaner.computeBalance`: explicit balance column first
(`Client Balance ?? Outstanding Balance ?? Balance`), else `Amortization Due`,
else interest plus penalty. -/
def computeBalance (row : RawRow) : Int :=
  match jsCoalesce row.clientBalance (jsCoalesce row.outstandingBalance row.balance) with
  | some v => v
  | none =>
    match row.amortizationDue with
    | some v => v
    | none => row.totalInterestBalance.getD 0 + row.penaltyAmount.getD 0

/-- JS `a || b` on nullable dates (a Date object is always truthy). -/
def jsOrD (a b : Option Int) : Option Int :=
  match a with
  | some v => some v
  | none => b

/-- `DataCleaner.pickStatementDate`: statement date, else report date, else
as-at date, else next due date, else null. -/
def pickStatementDate (row : RawRow) : Option Int :=
  jsOrD row.statementDate (jsOrD row.reportDate (jsOrD row.asAt row.nextDueDate))

/-- `DataCleaner.mapToClientSchema`: build the canonical client record for
the pipeline, forcing the balance to zero when the status is cleared. -/
def mapToClientSchema (row : RawRow) : ClientRecord :=
  let loanStatus := (jsOrS row.loanStatusName (jsOrS row.loanStatus (some "Unknown"))).getD "Unknown"
  let cls := classifyStatus (some loanStatus)
  let isCleared := cls.1
  let isExtended := cls.2
  let bal := if isCleared then 0 else computeBalance row
  { clientKey := some (makeClientKey row)
    fullName := some ((jsOrS row.fullName (jsOrS row.borrowerName (some ""))).getD "")
    phone := normalizePhone (jsOrS row.borrowerMobile row.borrowerLandline)
    email := normalizeEmail row.borrowerEmail
    address := optTruthyS row.borrowerAddress
    dateOfBirth := row.borrowerDateOfBirthIso
    loanStatus := some loanStatus
    isExtended := some isExtended
    statusBucket := some (if isExtended then "extended" else if isCleared then "cleared" else "balance")
    balance := some bal
    statementDate := pickStatementDate row }

/-- Falsiness of a nullable JS string (null or empty). -/
def jsFalsyS (a : Option String) : Bool :=
  match a with
  | none => true
  | some s => s.isEmpty

/-- `normalizeZMPhone` (src/routes/clients.js): digits only, then rewrite a
260-prefixed number of at least 12 digits or a bare 9-digit number to the
0-prefixed local form; anything else is returned as its digit string. -/
def normalizeZMPhone (input : Option String) : String :=
  let d := digitsOf (input.getD "")
  if d.isEmpty then ""
  else if "260".data.isPrefixOf d.data && decide (12 ≤ d.data.length) then
    "0" ++ String.mk (d.data.drop 3)
  else if d.data.length = 9 then "0" ++ d
  else if d.data.length = 10 && "0".data.isPrefixOf d.data then d
  else d

/-- Word capitalization used by `cleanFullName`:
`w[0].toUpperCase() + w.slice(1).toLowerCase()`. -/
def capWord (w : String) : String :=
  match w.data with
  | [] => ""
  | c :: cs => String.mk (c.toUpper :: cs.map Char.toLower)

/-- Whitespace-separated words of a string, empty pieces dropped (what JS
trim, collapse and split leave). -/
def wordsChars : List Char → List Char → List String
  | cur, [] => if cur.isEmpty then [] else [String.mk cur.reverse]
  | cur, c :: rest =>
    if c.isWhitespace then
      if cur.isEmpty then wordsChars [] rest else String.mk cur.reverse :: wordsChars [] rest
    else wordsChars (c :: cur) rest

/-- Words of a string. -/
def wordsOf (s : String) : List String := wordsChars [] s.data

/-- Space-joined concatenation (JS `join(" ")`). -/
def joinSpace : List String → String
  | [] => ""
  | [w] => w
  | w :: rest => w ++ " " ++ joinSpace rest

/-- `cleanFullName` (src/routes/clients.js): trim and collapse whitespace,
strip a leading title word when another word follows, then capitalize each
word. -/
def cleanFullName (name : Option String) : String :=
  let words := wordsOf (name.getD "")
  let titles := ["mr", "mr.", "mrs", "mrs.", "miss", "ms", "ms.", "dr", "dr.", "prof", "prof."]
  let stripped :=
    match words with
    | [] => []
    | w :: rest => if titles.contains (lowerStr w) && !rest.isEmpty then rest else w :: rest
  joinSpace (stripped.map capWord)

/-- One raw loan row as the rebuild route reads it from the Loan collection
(fields selected by the cursor in src/routes/clients.js).  Numbers are read
through `toNumber` (null gives 0); dates are epoch milliseconds. -/
structure LoanRow where
  fullName : Option String
  borrowerMobile : Option String
  borrowerEmail : Option String
  borrowerAddress : Option String
  loanStatus : Option String
  principalAmount : Option Int
  amortizationDue : Option Int
  totalInterestBalance : Option Int
  penaltyAmount : Option Int
  nextDueDate : Option Int
  importedAt : Option Int
deriving Repr, DecidableEq

/-- `loanActualBalance` (src/routes/clients.js): zero for a fully paid or
written-off loan, else amortization due plus interest balance plus penalty,
clamped below at zero. -/
def loanActualBalance (loan : LoanRow) : Int :=
  let status := trimStr (lowerStr (loan.loanStatus.getD ""))
  if status = "fully paid" ∨ status = "write-off" then 0
  else
    let total := loan.amortizationDue.getD 0 + loan.totalInterestBalance.getD 0 +
      loan.penaltyAmount.getD 0
    if 0 < total then total else 0

/-- Email reading of the rebuild loop:
`String(loan.borrowerEmail || "").toLowerCase().trim()`. -/
def rebuildLoanEmail (loan : LoanRow) : String :=
  trimStr (lowerStr (loan.borrowerEmail.getD ""))

/-- Identity key the rebuild-from-loans cursor loop computes for a loan row:
phone-based key first, else email-based key, else the empty string (in which
case the row is skipped by `continue`). -/
def rebuildKey (loan : LoanRow) : String :=
  let phone09 := normalizeZMPhone loan.borrowerMobile
  let email := rebuildLoanEmail loan
  if !phone09.isEmpty then "phone:" ++ phone09
  else if !email.isEmpty then "email:" ++ email
  else ""

/-- Per-key accumulator of the rebuild loop. -/
structure RebuildGroup where
  clientKey : String
  fullName : String
  phone : Option String
  email : Option String
  address : String
  balance : Int
  statementDate : Option Int
  lastImportedAt : Option Int
deriving Repr, DecidableEq

/-- Fresh group created on first sighting of a key
(`groups.set(clientKey, g)` with the initial object literal). -/
def initGroup (key phone09 email : String) : RebuildGroup :=
  { clientKey := key
    fullName := ""
    phone := if phone09.isEmpty then none else some phone09
    email := if email.isEmpty then none else some email
    address := ""
    balance := 0
    statementDate := none
    lastImportedAt := none }

/-- In-place mutation of a group by one loan row: fill missing profile
fields, add the row's actual balance, track the latest importedAt as both
statement date and provenance date. -/
def fillGroup (g0 : RebuildGroup) (loan : LoanRow) (phone09 email : String) :
    RebuildGroup :=
  let g1 := if g0.fullName.isEmpty && !(loan.fullName.getD "").isEmpty then
      { g0 with fullName := cleanFullName loan.fullName } else g0
  let g2 := if jsFalsyS g1.phone && !phone09.isEmpty then
      { g1 with phone := some phone09 } else g1
  let g3 := if jsFalsyS g2.email && !email.isEmpty then
      { g2 with email := some email } else g2
  let g4 := if g3.address.isEmpty && !(loan.borrowerAddress.getD "").isEmpty then
      { g3 with address := trimStr (loan.borrowerAddress.getD "") } else g3
  let g5 := { g4 with balance := g4.balance + loanActualBalance loan }
  match loan.importedAt with
  | none => g5
  | some t =>
    { g5 with
      statementDate :=
        match g5.statementDate with
        | none => some t
        | some old => if old < t then some t else some old
      lastImportedAt :=
        match g5.lastImportedAt with
        | none => some t
        | some old => if old < t then some t else some old }

/-- Body of the rebuild-from-loans cursor loop: derive the key, skip keyless
rows, create or fetch the group, and apply the row to it. -/
def rebuildStep (groups : List (String × RebuildGroup)) (loan : LoanRow) :
    List (String × RebuildGroup) :=
  let phone09 := normalizeZMPhone loan.borrowerMobile
  let email := rebuildLoanEmail loan
  let key := rebuildKey loan
  if key.isEmpty then groups
  else
    mapSet groups key
      (fillGroup ((mapGet groups key).getD (initGroup key phone09 email)) loan phone09 email)

/-- Consolidated client document written by the rebuild route's unconditional
upsert (one op per group). -/
structure RebuiltClient where
  clientKey : String
  fullName : String
  phone : Option String
  email : Option String
  address : Option String
  balance : Int
  loanStatus : String
  statusBucket : String
  isExtended : Bool
  statementDate : Int
  lastImportedAt : Int
deriving Repr, DecidableEq

/-- Projection of a finished group onto the written client document
(`now` models `new Date()` for groups lacking an import timestamp). -/
def mkRebuiltClient (g : RebuildGroup) (now : Int) : RebuiltClient :=
  let totalBalance := g.balance
  { clientKey := g.clientKey
    fullName := g.fullName
    phone := g.phone
    email := g.email
    address := if g.address.isEmpty then none else some g.address
    balance := totalBalance
    loanStatus := if 0 < totalBalance then "Unknown" else "Fully Paid"
    statusBucket := if 0 < totalBalance then "balance" else "cleared"
    isExtended := false
    statementDate := g.statementDate.getD now
    lastImportedAt := g.lastImportedAt.getD now }

/-- The rebuild-from-loans pass: group the whole raw ledger, then emit one
unconditional upsert per identity key (batching by 1000 does not change which
documents are written, so it is elided). -/
def rebuildFromLoans (loans : List LoanRow) (now : Int) : List RebuiltClient :=
  ((loans.foldl rebuildStep []).map (fun p => mkRebuiltClient p.2 now))

/-- View of a loan row as the csv-shaped map `makeClientKey` consumes, under
the evident field correspondence (Borrower Mobile is the loan's mobile, etc.;
a Loan document carries no landline, no date of birth and no balance-like
columns). -/
def loanAsRawRow (loan : LoanRow) : RawRow :=
  { fullName := loan.fullName
    borrowerName := none
    borrowerMobile := loan.borrowerMobile
    borrowerLandline := none
    borrowerEmail := loan.borrowerEmail
    borrowerAddress := loan.borrowerAddress
    borrowerDateOfBirthIso := none
    loanStatusName := none
    loanStatus := loan.loanStatus
    clientBalance := none
    outstandingBalance := none
    balance := none
    amortizationDue := loan.amortizationDue
    totalInterestBalance := loan.totalInterestBalance
    penaltyAmount := loan.penaltyAmount
    statementDate := none
    reportDate := none
    asAt := none
    nextDueDate := loan.nextDueDate }

/-- Modelled from the spec: the store contract of section 6 (bulk unordered
upsert with partial-success reporting) is not part of src/ — only its caller
`processBatch` is.  An unordered bulk write executes every op independently:
each op whose key is not in the failing set commits its conditional merge, a
failing key blocks nothing else. -/
def bulkApply (store : String → Option ClientDoc) (ops : List ClientRecord)
    (failing : List String) (now : Int) : String → Option ClientDoc :=
  ops.foldl
    (fun st r =>
      let k := r.clientKey.getD ""
      if failing.contains k then st
      else fun q => if q = k then some (applyUpsert (st k) r now) else st q)
    store

/-- `CSVImportService.processBatch`, error-counter side: dedupe the batch,
issue the bulk write, and on a bulk call that reports any failure (the driver
surfaces partial failure of an unordered bulk write as a thrown error, caught
by the catch block) add the WHOLE op count to the error counter; on a fully
successful call the error counter is untouched.  The processed counter (a sum
of Mongo's matched, modified and upserted counts) is not modelled; no claim
depends on it. -/
def processBatch (store : String → Option ClientDoc) (errorCount : Nat)
    (batch : List ClientRecord) (failing : List String) (now : Int) :
    (String → Option ClientDoc) × Nat :=
  if batch.isEmpty then (store, errorCount)
  else
    let deduped := dedupeByClientKey batch
    (bulkApply store deduped failing now,
      if deduped.any (fun r => failing.contains (r.clientKey.getD "")) then
        errorCount + deduped.length
      else errorCount)

/-- Effective date of an incoming record as the upsert pipeline reads it
(epoch 0 when the record has no statement date). -/
def effectiveDate (r : ClientRecord) : Int := r.statementDate.getD 0

/-- Stored effective date of the document at a key (epoch 0 when no document
exists or the document has no statement date). -/
def prevEffectiveDate (prev : Option ClientDoc) : Int :=
  (prev.bind (fun c => c.statementDate)).getD 0

/-- Record with a balance but no statement date, reaching the upsert for a
previously unseen key: the pathological first write the spec singles out. -/
def recNoDate : ClientRecord :=
  { clientKey := some "phone:0978559684"
    fullName := some "Ann Banda"
    phone := some "0978559684"
    email := none
    address := none
    dateOfBirth := none
    loanStatus := some "Unknown"
    isExtended := some false
    statusBucket := some "balance"
    balance := some 100
    statementDate := none }

/-- Record with a real statement date used to instantiate the merge rule. -/
def recFresh : ClientRecord :=
  { clientKey := some "phone:0971234567"
    fullName := some "Joe Phiri"
    phone := some "0971234567"
    email := some "a@b.c"
    address := none
    dateOfBirth := none
    loanStatus := some "Current"
    isExtended := some false
    statusBucket := some "balance"
    balance := some 50
    statementDate := some 1000 }

/-- Older record for the order-independence counterexample: it carries an
email. -/
def recA6 : ClientRecord :=
  { clientKey := some "phone:0970000001"
    fullName := some "Ann"
    phone := some "0970000001"
    email := some "ann@x.c"
    address := none
    dateOfBirth := none
    loanStatus := some "Current"
    isExtended := some false
    statusBucket := some "balance"
    balance := some 100
    statementDate := some 1 }

/-- Newer record for the order-independence counterexample: it lacks an
email. -/
def recB6 : ClientRecord :=
  { clientKey := some "phone:0970000001"
    fullName := some "Ann B"
    phone := some "0970000001"
    email := none
    address := none
    dateOfBirth := none
    loanStatus := some "Current"
    isExtended := some false
    statusBucket := some "balance"
    balance := some 300
    statementDate := some 2 }

/-- Document state after a merge in which the given record won every field. -/
def winningDoc (b : ClientRecord) (t : Int) : ClientDoc :=
  { clientKey := b.clientKey
    fullName := b.fullName
    phone := b.phone
    email := b.email
    address := b.address
    dateOfBirth := b.dateOfBirth
    loanStatus := b.loanStatus
    statusBucket := b.statusBucket
    isExtended := b.isExtended
    balance := b.balance
    statementDate := some (effectiveDate b)
    lastImportedAt := some t }

/-- Raw row with every column absent. -/
def blankRow : RawRow :=
  { fullName := none
    borrowerName := none
    borrowerMobile := none
    borrowerLandline := none
    borrowerEmail := none
    borrowerAddress := none
    borrowerDateOfBirthIso := none
    loanStatusName := none
    loanStatus := none
    clientBalance := none
    outstandingBalance := none
    balance := none
    amortizationDue := none
    totalInterestBalance := none
    penaltyAmount := none
    statementDate := none
    reportDate := none
    asAt := none
    nextDueDate := none }

/-- Raw row whose only populated column is the borrower mobile. -/
def mobileRow (m : String) : RawRow := { blankRow with borrowerMobile := some m }

/-! Association-list lemmas for the JS Map model. -/

/-- Keys of an association list, in insertion order. -/
def keysOf {α : Type} (m : List (String × α)) : List String := m.map (fun p => p.1)

/-! Spec-side selection: the winner per identity key, scanning in arrival
order. -/

/-- Replacement rule as the spec words it: strictly later effective date, or
equal dates and strictly higher balance. -/
def specReplaces (r c : ClientRecord) : Prop :=
  recDate c < recDate r ∨ (recDate r = recDate c ∧ recBalance c < recBalance r)

instance (r c : ClientRecord) : Decidable (specReplaces r c) := by
  unfold specReplaces
  infer_instance

/-- One candidate of the per-key selection. -/
def bestStep (k : String) (acc : Option ClientRecord) (r : ClientRecord) :
    Option ClientRecord :=
  if keyOf r = some k then
    match acc with
    | none => some r
    | some c => if specReplaces r c then some r else some c
  else acc

/-- Winner for key `k` among the records, scanning in arrival order. -/
def bestFor (k : String) (records : List ClientRecord) : Option ClientRecord :=
  records.foldl (bestStep k) none

/-- Invariant tying the dedup fold's map to the per-key winners of the
processed prefix. -/
def DedupInv (m : List (String × ClientRecord)) (l : List ClientRecord) : Prop :=
  (∀ k, mapGet m k = bestFor k l) ∧
  (∀ p ∈ m, keyOf p.2 = some p.1) ∧
  (keysOf m).Nodup ∧
  (∀ p ∈ m, p.2 ∈ l)

/-- Deduplicated two-record batch for the partial-failure scenario: two
distinct keys, the first of which will fail. -/
def recK1 : ClientRecord :=
  { clientKey := some "phone:0970000101"
    fullName := some "K One"
    phone := some "0970000101"
    email := none
    address := none
    dateOfBirth := none
    loanStatus := some "Current"
    isExtended := some false
    statusBucket := some "balance"
    balance := some 10
    statementDate := some 100 }

/-- Second record of the partial-failure batch. -/
def recK2 : ClientRecord :=
  { clientKey := some "phone:0970000102"
    fullName := some "K Two"
    phone := some "0970000102"
    email := none
    address := none
    dateOfBirth := none
    loanStatus := some "Current"
    isExtended := some false
    statusBucket := some "balance"
    balance := some 20
    statementDate := some 100 }

/-- Loan row carrying a 260-prefixed mobile rendering. -/
def loanZm : LoanRow :=
  { fullName := some "Ann Banda"
    borrowerMobile := some "260978559684"
    borrowerEmail := none
    borrowerAddress := none
    loanStatus := some "Current"
    principalAmount := some 1000
    amortizationDue := some 50
    totalInterestBalance := some 5
    penaltyAmount := some 0
    nextDueDate := none
    importedAt := some 1000 }

/-- Loan row with neither phone nor email, but a name. -/
def loanNoContact : LoanRow :=
  { fullName := some "Ann Banda"
    borrowerMobile := none
    borrowerEmail := none
    borrowerAddress := none
    loanStatus := some "Current"
    principalAmount := some 1000
    amortizationDue := some 50
    totalInterestBalance := some 5
    penaltyAmount := some 0
    nextDueDate := none
    importedAt := some 1000 }

/-- Per-row unpaid amount read by the rebuilder before clamping. -/
def rowTotal (l : LoanRow) : Int :=
  l.amortizationDue.getD 0 + l.totalInterestBalance.getD 0 + l.penaltyAmount.getD 0

/-- Unpaid status test of `loanActualBalance`. -/
def isUnpaid (l : LoanRow) : Prop :=
  ¬ (trimStr (lowerStr (l.loanStatus.getD "")) = "fully paid" ∨
     trimStr (lowerStr (l.loanStatus.getD "")) = "write-off")

instance (l : LoanRow) : Decidable (isUnpaid l) := by
  unfold isUnpaid
  infer_instance

/-- Loan with a negative per-row total (amortization due of -10). -/
def loanNeg : LoanRow :=
  { fullName := some "Neg Row"
    borrowerMobile := some "0970000201"
    borrowerEmail := none
    borrowerAddress := none
    loanStatus := some "Current"
    principalAmount := some 0
    amortizationDue := some (-10)
    totalInterestBalance := some 0
    penaltyAmount := some 0
    nextDueDate := none
    importedAt := some 50 }

/-- Loan for the same key with a positive per-row total of 5. -/
def loanPos : LoanRow :=
  { fullName := some "Neg Row"
    borrowerMobile := some "0970000201"
    borrowerEmail := none
    borrowerAddress := none
    loanStatus := some "Current"
    principalAmount := some 0
    amortizationDue := some 5
    totalInterestBalance := some 0
    penaltyAmount := some 0
    nextDueDate := none
    importedAt := some 60 }

/-! Helper lemmas shared by the merge theorems. -/

theorem ifNull_self {α : Type} (x : Option α) : ifNull x x = x := by
  cases x <;> rfl

theorem ifNull_ifNull {α : Type} (x y : Option α) : ifNull (ifNull x y) y = ifNull x y := by
  cases x <;> cases y <;> rfl

/-- C2. Re-importing the same record a second time changes no business field
of the consolidated document: merging `r` into a state already produced by
merging `r` returns that state with only `lastImportedAt` advanced to the new
processing time, because an effective date is never strictly newer than
itself. -/
theorem reimport_idempotent (prev : Option ClientDoc) (r : ClientRecord) (t1 t2 : Int) :
    applyUpsert (some (applyUpsert prev r t1)) r t2 =
      { applyUpsert prev r t1 with lastImportedAt := some t2 } := by
  simp only [applyUpsert]
  by_cases h : (prev.bind (fun c => c.statementDate)).getD 0 < r.statementDate.getD 0 <;>
    simp [h, ifNull_ifNull, ifNull_self]

/-- C1 (counterexample). The claim's "else the existing stored value if
present, else the incoming value" fails for `balance`: merging a record with
balance 100 and no statement date for a previously unseen key (so the
incoming effective date equals the epoch and is not strictly newer) leaves
the stored balance absent instead of populating it from the record. -/
theorem upsert_missing_field_counterexample :
    (applyUpsert none recNoDate 5).balance = none ∧ recNoDate.balance = some 100 := by
  constructor <;> rfl

/-- C1 (amended). Field rule of the conflict-resolving upsert: when the
incoming effective date is strictly newer than the stored one (epoch when no
document exists), every business field takes the incoming value; otherwise
`fullName`, `phone`, `email`, `address` and `dateOfBirth` keep the stored
value when present and fall back to the incoming value when absent, while
`loanStatus`, `statusBucket`, `isExtended` and `balance` keep the stored
value even when absent (no incoming fallback).  A record for a previously
unseen key therefore populates all nine business fields exactly when its
effective date is strictly after the epoch. -/
theorem upsert_merge_field_rules (prev : Option ClientDoc) (inc : ClientRecord) (now : Int) :
    (prevEffectiveDate prev < effectiveDate inc →
      (applyUpsert prev inc now).fullName = inc.fullName ∧
      (applyUpsert prev inc now).phone = inc.phone ∧
      (applyUpsert prev inc now).email = inc.email ∧
      (applyUpsert prev inc now).address = inc.address ∧
      (applyUpsert prev inc now).dateOfBirth = inc.dateOfBirth ∧
      (applyUpsert prev inc now).loanStatus = inc.loanStatus ∧
      (applyUpsert prev inc now).statusBucket = inc.statusBucket ∧
      (applyUpsert prev inc now).isExtended = inc.isExtended ∧
      (applyUpsert prev inc now).balance = inc.balance) ∧
    (¬ prevEffectiveDate prev < effectiveDate inc →
      (applyUpsert prev inc now).fullName = ifNull (prev.bind (fun c => c.fullName)) inc.fullName ∧
      (applyUpsert prev inc now).phone = ifNull (prev.bind (fun c => c.phone)) inc.phone ∧
      (applyUpsert prev inc now).email = ifNull (prev.bind (fun c => c.email)) inc.email ∧
      (applyUpsert prev inc now).address = ifNull (prev.bind (fun c => c.address)) inc.address ∧
      (applyUpsert prev inc now).dateOfBirth = ifNull (prev.bind (fun c => c.dateOfBirth)) inc.dateOfBirth ∧
      (applyUpsert prev inc now).loanStatus = prev.bind (fun c => c.loanStatus) ∧
      (applyUpsert prev inc now).statusBucket = prev.bind (fun c => c.statusBucket) ∧
      (applyUpsert prev inc now).isExtended = prev.bind (fun c => c.isExtended) ∧
      (applyUpsert prev inc now).balance = prev.bind (fun c => c.balance)) ∧
    (prev = none → 0 < effectiveDate inc →
      (applyUpsert prev inc now).fullName = inc.fullName ∧
      (applyUpsert prev inc now).phone = inc.phone ∧
      (applyUpsert prev inc now).email = inc.email ∧
      (applyUpsert prev inc now).address = inc.address ∧
      (applyUpsert prev inc now).dateOfBirth = inc.dateOfBirth ∧
      (applyUpsert prev inc now).loanStatus = inc.loanStatus ∧
      (applyUpsert prev inc now).statusBucket = inc.statusBucket ∧
      (applyUpsert prev inc now).isExtended = inc.isExtended ∧
      (applyUpsert prev inc now).balance = inc.balance) := by
  refine ⟨fun h => ?_, fun h => ?_, fun hp hd => ?_⟩
  · simp [applyUpsert, effectiveDate, prevEffectiveDate] at h ⊢
    simp [h]
  · simp [applyUpsert, effectiveDate, prevEffectiveDate] at h ⊢
    simp [h]
  · subst hp
    simp [applyUpsert, effectiveDate, prevEffectiveDate] at hd ⊢
    simp [hd]

/-- C1 (witness). The merge rule instantiated at a first write with a real
statement date populates the business fields. -/
theorem upsert_merge_field_rules_witness :
    (applyUpsert none recFresh 7).balance = some 50 ∧
    (applyUpsert none recFresh 7).email = some "a@b.c" := by
  obtain ⟨h1, _, _⟩ := upsert_merge_field_rules none recFresh 7
  have hx := h1 (by decide)
  exact ⟨hx.2.2.2.2.2.2.2.2, hx.2.2.1⟩

theorem ifNull_eq_left_of_imp {α : Type} {x y : Option α} (h : y.isSome → x.isSome) :
    ifNull x y = x := by
  cases x with
  | some v => rfl
  | none =>
    cases y with
    | none => rfl
    | some w => simp at h

/-- C6 (counterexample). Two records share a key and the second has the
strictly newer effective date, yet merging in the two orders disagrees: the
newer record lacks an email, so order [A,B] ends with no email (B's null
overwrote A's) while order [B,A] ends with A's email (the null-fill of the
older merge).  The final business fields are neither equal across orders nor
always B's. -/
theorem merge_order_counterexample :
    recA6.clientKey = recB6.clientKey ∧
    effectiveDate recA6 < effectiveDate recB6 ∧
    (applyUpsert (some (applyUpsert none recA6 10)) recB6 11).email = none ∧
    (applyUpsert (some (applyUpsert none recB6 10)) recA6 11).email = some "ann@x.c" := by
  refine ⟨rfl, by decide, rfl, rfl⟩

/-- C6 (amended). For records A and B sharing an identity key, with A's
effective date a real (non-negative) date and B's strictly newer, merging
[A,B] and [B,A] into an empty key as separate runs both end in B's business
fields — differing only in `lastImportedAt` — provided B has a value for each
of `fullName`, `phone`, `email`, `address`, `dateOfBirth` wherever A does
(without that proviso the older record's value survives the [B,A] order
through the null-fill, as the counterexample shows). -/
theorem merge_order_independence (a b : ClientRecord) (t1 t2 t3 t4 : Int)
    (hk : a.clientKey = b.clientKey)
    (ha : 0 ≤ effectiveDate a)
    (hd : effectiveDate a < effectiveDate b)
    (hname : a.fullName.isSome → b.fullName.isSome)
    (hphone : a.phone.isSome → b.phone.isSome)
    (hemail : a.email.isSome → b.email.isSome)
    (haddr : a.address.isSome → b.address.isSome)
    (hdob : a.dateOfBirth.isSome → b.dateOfBirth.isSome) :
    applyUpsert (some (applyUpsert none a t1)) b t2 = winningDoc b t2 ∧
    applyUpsert (some (applyUpsert none b t3)) a t4 = winningDoc b t4 := by
  have hdB : (0 : Int) < effectiveDate b := lt_of_le_of_lt ha hd
  have hba : ¬ effectiveDate b < effectiveDate a := not_lt.2 (le_of_lt hd)
  constructor
  · by_cases h0 : (0 : Int) < effectiveDate a
    · simp [applyUpsert, winningDoc, effectiveDate, prevEffectiveDate] at h0 hd ⊢
      simp [h0, hd]
    · simp [applyUpsert, winningDoc, effectiveDate, prevEffectiveDate] at h0 hdB ⊢
      simp [h0, hdB, not_lt.2 h0]
  · simp [applyUpsert, winningDoc, effectiveDate, prevEffectiveDate] at hdB hba ⊢
    simp [hdB, hba, hk, ifNull_eq_left_of_imp hname, ifNull_eq_left_of_imp hphone,
      ifNull_eq_left_of_imp hemail, ifNull_eq_left_of_imp haddr, ifNull_eq_left_of_imp hdob]

/-- C6 (witness). The amended order-independence instantiated at two concrete
records (the newer one has every profile field of the older one). -/
theorem merge_order_independence_witness :
    applyUpsert (some (applyUpsert none recA6 10)) { recB6 with email := some "b@x.c" } 11 =
      winningDoc { recB6 with email := some "b@x.c" } 11 ∧
    applyUpsert (some (applyUpsert none { recB6 with email := some "b@x.c" } 10)) recA6 12 =
      winningDoc { recB6 with email := some "b@x.c" } 12 := by
  exact merge_order_independence recA6 { recB6 with email := some "b@x.c" } 10 11 10 12
    rfl (by decide) (by decide) (by decide) (by decide) (by decide) (by decide) (by decide)

/-- The identity key of a mobile-only row is determined by the digit content
of the mobile: the phone key of its digit string, or the blank name fallback
when it contains no digit. -/
theorem mobileRow_key (s : String) :
    makeClientKey (mobileRow s) =
      if (digitsOf s).isEmpty then "name:|dob:nodob" else "phone:" ++ digitsOf s := by
  by_cases hs : s.isEmpty
  · have hs0 : s = "" := (String.isEmpty_iff s).mp hs
    subst hs0
    decide
  · simp [makeClientKey, mobileRow, blankRow, normalizePhone, normalizeEmail, jsOrS, hs]
    by_cases hd : (digitsOf s).isEmpty
    · simp [hd]
      decide
    · simp [hd]

/-- C3 (counterexample). The three renderings "0978559684", "978559684" and
"260978559684" of the same Zambian number do NOT resolve to one identity key:
`normalizePhone` keeps the digits as given (the optional 260-canonicalization
in the source is commented out), so the three rows get three distinct phone
keys. -/
theorem phone_key_normalization_counterexample :
    makeClientKey (mobileRow "0978559684") = "phone:0978559684" ∧
    makeClientKey (mobileRow "978559684") = "phone:978559684" ∧
    makeClientKey (mobileRow "260978559684") = "phone:260978559684" ∧
    makeClientKey (mobileRow "0978559684") ≠ makeClientKey (mobileRow "260978559684") ∧
    makeClientKey (mobileRow "0978559684") ≠ makeClientKey (mobileRow "978559684") ∧
    makeClientKey (mobileRow "978559684") ≠ makeClientKey (mobileRow "260978559684") := by
  refine ⟨rfl, rfl, rfl, by decide, by decide, by decide⟩

/-- C3 (amended). Phone normalization in the identity key strips all
non-digits and nothing more: two phone renderings resolve to the same
identity key exactly when their digit strings agree, so leading-zero or
country-code variants of one real number map to distinct keys. -/
theorem phone_key_digits_rule (x y : String) (h : digitsOf x = digitsOf y) :
    makeClientKey (mobileRow x) = makeClientKey (mobileRow y) := by
  rw [mobileRow_key x, mobileRow_key y, h]

/-- C3 (witness). Two renderings with equal digit strings (differing in
punctuation only) share their key. -/
theorem phone_key_digits_rule_witness :
    digitsOf "097-855-9684" = digitsOf "0978559684" ∧
    makeClientKey (mobileRow "097-855-9684") = makeClientKey (mobileRow "0978559684") := by
  refine ⟨by decide, phone_key_digits_rule "097-855-9684" "0978559684" (by decide)⟩

theorem mapGet_mapSet_self {α : Type} (m : List (String × α)) (k : String) (v : α) :
    mapGet (mapSet m k v) k = some v := by
  induction m with
  | nil => simp [mapGet, mapSet]
  | cons p rest ih =>
    by_cases h : p.1 = k
    · simp [mapSet, mapGet, h]
    · simp [mapSet, mapGet, h, ih]

theorem mapGet_mapSet_ne {α : Type} (m : List (String × α)) (k q : String) (v : α)
    (h : q ≠ k) : mapGet (mapSet m k v) q = mapGet m q := by
  have hkq : ¬ k = q := fun hh => h hh.symm
  induction m with
  | nil => simp [mapGet, mapSet, hkq]
  | cons p rest ih =>
    by_cases hp : p.1 = k
    · simp [mapSet, mapGet, hp, hkq]
    · simp [mapSet, mapGet, hp, ih]

theorem mapGet_eq_none_iff {α : Type} (m : List (String × α)) (k : String) :
    mapGet m k = none ↔ k ∉ keysOf m := by
  induction m with
  | nil => simp [mapGet, keysOf]
  | cons p rest ih =>
    by_cases h : p.1 = k
    · simp [mapGet, keysOf, h]
    · have hk : ¬ k = p.1 := fun hh => h hh.symm
      simp [mapGet, keysOf, h, ih, hk]

theorem mapSet_append_of_get_none {α : Type} (m : List (String × α)) (k : String) (v : α)
    (h : mapGet m k = none) : mapSet m k v = m ++ [(k, v)] := by
  induction m with
  | nil => simp [mapSet]
  | cons p rest ih =>
    by_cases hp : p.1 = k
    · simp [mapGet, hp] at h
    · simp [mapGet, hp] at h
      simp [mapSet, hp, ih h]

theorem mem_mapSet {α : Type} (m : List (String × α)) (k : String) (v : α) (p : String × α)
    (h : p ∈ mapSet m k v) : p ∈ m ∨ p = (k, v) := by
  induction m with
  | nil => simpa [mapSet] using h
  | cons q rest ih =>
    by_cases hq : q.1 = k
    · simp [mapSet, hq] at h
      rcases h with h | h
      · right
        rw [h, ← hq]
      · left
        simp [h]
    · simp [mapSet, hq] at h
      rcases h with h | h
      · left
        simp [h]
      · rcases ih h with h2 | h2
        · left
          simp [h2]
        · right
          exact h2

theorem keysOf_mapSet_of_get_some {α : Type} (m : List (String × α)) (k : String) (v w : α)
    (h : mapGet m k = some w) : keysOf (mapSet m k v) = keysOf m := by
  induction m with
  | nil => simp [mapGet] at h
  | cons p rest ih =>
    by_cases hp : p.1 = k
    · simp [mapSet, keysOf, hp]
    · simp [mapGet, hp] at h
      simp [mapSet, keysOf, hp] at ih ⊢
      exact ih h

theorem mapGet_of_mem_nodup {α : Type} :
    ∀ (m : List (String × α)) (k : String) (v : α),
      (k, v) ∈ m → (keysOf m).Nodup → mapGet m k = some v
  | [], k, v, hmem, _ => by simp at hmem
  | p :: rest, k, v, hmem, hnd => by
    have hnd2 : p.1 ∉ keysOf rest ∧ (keysOf rest).Nodup := by
      simpa [keysOf, List.nodup_cons] using hnd
    rcases List.mem_cons.mp hmem with h | h
    · simp [mapGet, ← h]
    · have hkmem : k ∈ keysOf rest := List.mem_map.mpr ⟨(k, v), h, rfl⟩
      have hk : ¬ p.1 = k := fun hpk => hnd2.1 (hpk ▸ hkmem)
      simp [mapGet, hk]
      exact mapGet_of_mem_nodup rest k v h hnd2.2

theorem mapGet_some_mem {α : Type} (m : List (String × α)) (k : String) (v : α)
    (h : mapGet m k = some v) : (k, v) ∈ m := by
  induction m with
  | nil => simp [mapGet] at h
  | cons p rest ih =>
    by_cases hp : p.1 = k
    · simp [mapGet, hp] at h
      have hpv : p = (k, v) := by
        cases p
        simp_all
      rw [← hpv]
      exact List.mem_cons_self p rest
    · simp [mapGet, hp] at h
      exact List.mem_cons_of_mem _ (ih h)

theorem replaces_iff (r c : ClientRecord) : replaces r c = true ↔ specReplaces r c := by
  simp [replaces, specReplaces]

theorem bestFor_append_single (k : String) (l : List ClientRecord) (r : ClientRecord) :
    bestFor k (l ++ [r]) = bestStep k (bestFor k l) r := by
  simp [bestFor, List.foldl_append]

theorem dedupInv_step {m : List (String × ClientRecord)} {l : List ClientRecord}
    (h : DedupInv m l) (r : ClientRecord) : DedupInv (dedupeStep m r) (l ++ [r]) := by
  obtain ⟨h1, h2, h3, h4⟩ := h
  have hmem_l : ∀ p ∈ m, p.2 ∈ l ++ [r] := fun p hp =>
    List.mem_append_left _ (h4 p hp)
  cases hkey : keyOf r with
  | none =>
    have hstep : dedupeStep m r = m := by simp [dedupeStep, hkey]
    rw [hstep]
    refine ⟨fun k => ?_, h2, h3, hmem_l⟩
    rw [bestFor_append_single]
    simp [bestStep, hkey, h1 k]
  | some k0 =>
    cases hget : mapGet m k0 with
    | none =>
      have hstep : dedupeStep m r = mapSet m k0 r := by simp [dedupeStep, hkey, hget]
      rw [hstep]
      have hset := mapSet_append_of_get_none m k0 r hget
      refine ⟨fun k => ?_, fun p hp => ?_, ?_, fun p hp => ?_⟩
      · rw [bestFor_append_single]
        by_cases hk : k = k0
        · subst hk
          rw [mapGet_mapSet_self]
          simp [bestStep, hkey, ← h1 k, hget]
        · rw [mapGet_mapSet_ne m k0 k r hk]
          have hk0 : ¬ k0 = k := fun hh => hk hh.symm
          have : ¬ keyOf r = some k := by simp [hkey, hk0]
          simp [bestStep, this, h1 k]
      · rcases mem_mapSet m k0 r p hp with hin | heq
        · exact h2 p hin
        · rw [heq]
          exact hkey
      · rw [hset, keysOf]
        simp only [List.map_append]
        refine List.Nodup.append h3 (by simp) ?_
        intro a ha hb
        simp at hb
        have : a ∈ keysOf m := by simpa [keysOf] using ha
        rw [hb] at this
        exact ((mapGet_eq_none_iff m k0).mp hget) this
      · rcases mem_mapSet m k0 r p hp with hin | heq
        · exact hmem_l p hin
        · rw [heq]
          exact List.mem_append_right _ (by simp)
    | some c =>
      by_cases hrep : replaces r c
      · have hstep : dedupeStep m r = mapSet m k0 r := by simp [dedupeStep, hkey, hget, hrep]
        rw [hstep]
        refine ⟨fun k => ?_, fun p hp => ?_, ?_, fun p hp => ?_⟩
        · rw [bestFor_append_single]
          by_cases hk : k = k0
          · subst hk
            rw [mapGet_mapSet_self]
            simp [bestStep, hkey, ← h1 k, hget, (replaces_iff r c).mp hrep]
          · rw [mapGet_mapSet_ne m k0 k r hk]
            have hk0 : ¬ k0 = k := fun hh => hk hh.symm
            have : ¬ keyOf r = some k := by simp [hkey, hk0]
            simp [bestStep, this, h1 k]
        · rcases mem_mapSet m k0 r p hp with hin | heq
          · exact h2 p hin
          · rw [heq]
            exact hkey
        · rw [keysOf_mapSet_of_get_some m k0 r c hget]
          exact h3
        · rcases mem_mapSet m k0 r p hp with hin | heq
          · exact hmem_l p hin
          · rw [heq]
            exact List.mem_append_right _ (by simp)
      · have hstep : dedupeStep m r = m := by simp [dedupeStep, hkey, hget, hrep]
        rw [hstep]
        refine ⟨fun k => ?_, h2, h3, hmem_l⟩
        rw [bestFor_append_single]
        by_cases hk : k = k0
        · subst hk
          have hnr : ¬ specReplaces r c := fun hs => hrep ((replaces_iff r c).mpr hs)
          simp [bestStep, hkey, ← h1 k, hget, hnr]
        · have hk0 : ¬ k0 = k := fun hh => hk hh.symm
          have : ¬ keyOf r = some k := by simp [hkey, hk0]
          simp [bestStep, this, h1 k]

theorem dedupInv_foldl {m : List (String × ClientRecord)} {l : List ClientRecord}
    (h : DedupInv m l) :
    ∀ l2, DedupInv (List.foldl dedupeStep m l2) (l ++ l2)
  | [] => by simpa using h
  | r :: rest => by
    have step := dedupInv_step h r
    have ih := dedupInv_foldl step rest
    simpa [List.append_assoc] using ih

theorem dedupInv_nil : DedupInv [] [] := by
  refine ⟨fun k => rfl, by simp, by simp [keysOf], by simp⟩

/-- The fold underlying `dedupeByClientKey` satisfies the selection
invariant. -/
theorem dedupe_inv (records : List ClientRecord) :
    DedupInv (records.foldl dedupeStep []) records := by
  simpa using dedupInv_foldl dedupInv_nil records

/-- Output records of the dedup carry pairwise distinct identity keys. -/
theorem dedupe_pairwise_keys (records : List ClientRecord) :
    List.Pairwise (fun a b => keyOf a ≠ keyOf b) (dedupeByClientKey records) := by
  obtain ⟨h1, h2, h3, h4⟩ := dedupe_inv records
  show List.Pairwise _ ((records.foldl dedupeStep []).map (fun p => p.2))
  rw [List.pairwise_map]
  have h3p : List.Pairwise (fun p q : String × ClientRecord => p.1 ≠ q.1)
      (records.foldl dedupeStep []) := by
    have := h3
    rw [keysOf, List.Nodup, List.pairwise_map] at this
    exact this
  refine h3p.imp_of_mem ?_
  intro p q hp hq hne
  rw [h2 p hp, h2 q hq]
  simp [hne]

/-- C5. The intra-batch deduplicator keeps exactly one record per identity
key, chosen by the arrival-order scan: every output record has a (truthy)
key, output keys are pairwise distinct, and a record with key k is in the
output exactly when it wins the left-to-right selection for k — where a
candidate replaces the kept record iff its effective date is strictly later,
or the dates are equal and its balance is strictly higher.  Keyless records
never appear in the output. -/
theorem dedupe_selection_rule (records : List ClientRecord) :
    (∀ r ∈ dedupeByClientKey records, (keyOf r).isSome) ∧
    List.Pairwise (fun a b => keyOf a ≠ keyOf b) (dedupeByClientKey records) ∧
    (∀ k r, (r ∈ dedupeByClientKey records ∧ keyOf r = some k) ↔
      bestFor k records = some r) := by
  obtain ⟨h1, h2, h3, h4⟩ := dedupe_inv records
  have hd : dedupeByClientKey records = (records.foldl dedupeStep []).map (fun p => p.2) := rfl
  refine ⟨?_, dedupe_pairwise_keys records, ?_⟩
  · intro r hr
    rw [hd] at hr
    rcases List.mem_map.mp hr with ⟨p, hp, hpr⟩
    rw [← hpr, h2 p hp]
    rfl
  · intro k r
    constructor
    · rintro ⟨hr, hkr⟩
      rw [hd] at hr
      rcases List.mem_map.mp hr with ⟨p, hp, hpr⟩
      have hkp : keyOf p.2 = some p.1 := h2 p hp
      rw [hpr] at hkp
      have hk1 : p.1 = k := Option.some.inj (hkp.symm.trans hkr)
      have hmemp : (k, r) ∈ records.foldl dedupeStep [] := by
        have : p = (k, r) := by
          cases p
          simp_all
        rw [← this]
        exact hp
      rw [← h1 k]
      exact mapGet_of_mem_nodup _ k r hmemp h3
    · intro hb
      have hget : mapGet (records.foldl dedupeStep []) k = some r := by rw [h1 k]; exact hb
      have hmem := mapGet_some_mem _ k r hget
      refine ⟨?_, h2 (k, r) hmem⟩
      rw [hd]
      exact List.mem_map.mpr ⟨(k, r), hmem, rfl⟩

/-- Replaying the dedup fold on a map's own entries reproduces the map, entry
by entry. -/
theorem foldl_dedupeStep_entries :
    ∀ (m2 m1 : List (String × ClientRecord)),
      (keysOf (m1 ++ m2)).Nodup →
      (∀ p ∈ m1 ++ m2, keyOf p.2 = some p.1) →
      List.foldl dedupeStep m1 (m2.map (fun p => p.2)) = m1 ++ m2
  | [], m1, _, _ => by simp
  | (k, r) :: rest, m1, hnd, hcons => by
    have hkey : keyOf r = some k := hcons (k, r) (by simp)
    have hknotin : k ∉ keysOf m1 := by
      intro hkin
      have heq : keysOf (m1 ++ (k, r) :: rest) = keysOf m1 ++ k :: keysOf rest := by
        simp [keysOf]
      rw [heq] at hnd
      rcases List.nodup_append.mp hnd with ⟨-, -, hdisj⟩
      exact hdisj hkin (by simp)
    have hget : mapGet m1 k = none := (mapGet_eq_none_iff m1 k).mpr hknotin
    have hstep : dedupeStep m1 r = m1 ++ [(k, r)] := by
      simp [dedupeStep, hkey, hget, mapSet_append_of_get_none m1 k r hget]
    have hassoc : (m1 ++ [(k, r)]) ++ rest = m1 ++ (k, r) :: rest := by simp
    have ih := foldl_dedupeStep_entries rest (m1 ++ [(k, r)])
      (by rw [hassoc]; exact hnd) (by rw [hassoc]; exact hcons)
    simp only [List.map_cons, List.foldl_cons, hstep]
    rw [ih, hassoc]

/-- C10. The deduplicator is a well-behaved selection: every output record is
an element of the input, every output record has a non-null identity key,
output keys are pairwise distinct, and running the deduplicator on its own
output returns that output unchanged. -/
theorem dedupe_wellbehaved (records : List ClientRecord) :
    (∀ r ∈ dedupeByClientKey records, r ∈ records) ∧
    (∀ r ∈ dedupeByClientKey records, keyOf r ≠ none) ∧
    List.Pairwise (fun a b => keyOf a ≠ keyOf b) (dedupeByClientKey records) ∧
    dedupeByClientKey (dedupeByClientKey records) = dedupeByClientKey records := by
  obtain ⟨h1, h2, h3, h4⟩ := dedupe_inv records
  have hd : dedupeByClientKey records = (records.foldl dedupeStep []).map (fun p => p.2) := rfl
  refine ⟨?_, ?_, dedupe_pairwise_keys records, ?_⟩
  · intro r hr
    rw [hd] at hr
    rcases List.mem_map.mp hr with ⟨p, hp, hpr⟩
    rw [← hpr]
    exact h4 p hp
  · intro r hr
    rw [hd] at hr
    rcases List.mem_map.mp hr with ⟨p, hp, hpr⟩
    rw [← hpr, h2 p hp]
    simp
  · have hrep := foldl_dedupeStep_entries (records.foldl dedupeStep []) []
      (by simpa using h3) (by simpa using h2)
    calc dedupeByClientKey (dedupeByClientKey records)
        = (List.foldl dedupeStep [] ((records.foldl dedupeStep []).map (fun p => p.2))).map
            (fun p => p.2) := rfl
      _ = dedupeByClientKey records := by rw [hrep]; simp [hd]

theorem clientKey_getD_of_keyOf {r : ClientRecord} {k : String} (h : keyOf r = some k) :
    r.clientKey.getD "" = k := by
  unfold keyOf at h
  cases hc : r.clientKey with
  | none => rw [hc] at h; simp at h
  | some s =>
    rw [hc] at h
    by_cases hs : s.isEmpty
    · simp [hs] at h
    · simp [hs] at h
      simp [h]

/-- Keys read off the dedup output, as the bulk-apply fold reads them, are
pairwise distinct. -/
theorem dedupe_keys_nodup (records : List ClientRecord) :
    ((dedupeByClientKey records).map (fun r => r.clientKey.getD "")).Nodup := by
  obtain ⟨h1, h2, h3, h4⟩ := dedupe_inv records
  have hpair := dedupe_pairwise_keys records
  have hkey : ∀ r ∈ dedupeByClientKey records, keyOf r = some (r.clientKey.getD "") := by
    intro r hr
    rcases List.mem_map.mp hr with ⟨p, hp2, hpr⟩
    have hk := h2 p hp2
    rw [hpr] at hk
    rw [hk, clientKey_getD_of_keyOf hk]
  rw [List.Nodup, List.pairwise_map]
  refine hpair.imp_of_mem ?_
  intro a b ha hb hne heq
  exact hne (by rw [hkey a ha, hkey b hb, heq])

theorem bulkApply_cons (store : String → Option ClientDoc) (o : ClientRecord)
    (rest : List ClientRecord) (failing : List String) (now : Int) :
    bulkApply store (o :: rest) failing now =
      bulkApply
        (if failing.contains (o.clientKey.getD "") then store
         else fun q => if q = o.clientKey.getD "" then
           some (applyUpsert (store (o.clientKey.getD "")) o now) else store q)
        rest failing now := by
  simp only [bulkApply, List.foldl_cons]

theorem bulkApply_not_touched :
    ∀ (ops : List ClientRecord) (store : String → Option ClientDoc) (failing : List String)
      (now : Int) (k : String),
      (∀ r ∈ ops, r.clientKey.getD "" ≠ k) →
      bulkApply store ops failing now k = store k
  | [], _, _, _, _, _ => rfl
  | o :: rest, store, failing, now, k, h => by
    have hk : o.clientKey.getD "" ≠ k := h o (by simp)
    have hrest : ∀ r ∈ rest, r.clientKey.getD "" ≠ k := fun r hr =>
      h r (List.mem_cons_of_mem _ hr)
    rw [bulkApply_cons]
    by_cases hf : failing.contains (o.clientKey.getD "")
    · rw [if_pos hf]
      exact bulkApply_not_touched rest store failing now k hrest
    · rw [if_neg hf, bulkApply_not_touched rest _ failing now k hrest]
      have hkk : ¬ k = o.clientKey.getD "" := fun hh => hk hh.symm
      simp [hkk]

/-- A committed key of an unordered bulk write holds the conditional merge of
its op against the pre-batch store state, whatever other keys fail. -/
theorem bulkApply_commits :
    ∀ (ops : List ClientRecord) (store : String → Option ClientDoc) (failing : List String)
      (now : Int),
      (ops.map (fun r => r.clientKey.getD "")).Nodup →
      ∀ r ∈ ops, failing.contains (r.clientKey.getD "") = false →
        bulkApply store ops failing now (r.clientKey.getD "") =
          some (applyUpsert (store (r.clientKey.getD "")) r now)
  | [], _, _, _, _, r, hr, _ => by simp at hr
  | o :: rest, store, failing, now, hnd, r, hr, hf => by
    have hnd2 : ((rest.map fun r => r.clientKey.getD "").Nodup ∧
        (o.clientKey.getD "") ∉ rest.map (fun r => r.clientKey.getD "")) := by
      rw [List.map_cons, List.nodup_cons] at hnd
      exact ⟨hnd.2, hnd.1⟩
    rw [bulkApply_cons]
    rcases List.mem_cons.mp hr with h | h
    · subst h
      have hf2 : ¬ failing.contains (r.clientKey.getD "") = true := by
        rw [hf]
        simp
      have hne2 : ∀ r2 ∈ rest, r2.clientKey.getD "" ≠ r.clientKey.getD "" := by
        intro r2 hr2 heq
        exact hnd2.2 (heq ▸ List.mem_map.mpr ⟨r2, hr2, rfl⟩)
      rw [if_neg hf2, bulkApply_not_touched rest _ failing now _ hne2]
      simp
    · by_cases hfo : failing.contains (o.clientKey.getD "")
      · rw [if_pos hfo]
        exact bulkApply_commits rest store failing now hnd2.1 r h hf
      · rw [if_neg hfo]
        rw [bulkApply_commits rest _ failing now hnd2.1 r h hf]
        have hne : ¬ r.clientKey.getD "" = o.clientKey.getD "" := by
          intro heq
          exact hnd2.2 (List.mem_map.mpr ⟨r, h, heq⟩)
        simp [hne]

/-- C4 (counterexample). In a batch of N = 2 keys where exactly one key
fails, the error counter increases by 2 — the whole op count — not by 1: the
catch block of `processBatch` adds `ops.length` on any failed bulk call, with
no per-key accounting. -/
theorem partial_failure_counting_counterexample :
    (processBatch (fun _ => none) 0 [recK1, recK2] ["phone:0970000101"] 5).2 = 2 ∧
    ¬ (processBatch (fun _ => none) 0 [recK1, recK2] ["phone:0970000101"] 5).2 = 1 := by
  constructor <;> decide

/-- C4 (amended). When the bulk write of a deduplicated batch reports any
failing key, the error counter increases by the full op count of the batch
(not by the number of failing keys); when no key fails it is unchanged.
Failing keys still do not block the others: every op whose key is not in the
failing set is committed as the conditional merge against the pre-batch
store. -/
theorem processBatch_error_counting (store : String → Option ClientDoc) (e : Nat)
    (batch : List ClientRecord) (failing : List String) (now : Int) :
    ((dedupeByClientKey batch).any (fun r => failing.contains (r.clientKey.getD "")) = true →
      (processBatch store e batch failing now).2 = e + (dedupeByClientKey batch).length) ∧
    ((dedupeByClientKey batch).any (fun r => failing.contains (r.clientKey.getD "")) = false →
      (processBatch store e batch failing now).2 = e) ∧
    (∀ r ∈ dedupeByClientKey batch, failing.contains (r.clientKey.getD "") = false →
      (processBatch store e batch failing now).1 (r.clientKey.getD "") =
        some (applyUpsert (store (r.clientKey.getD "")) r now)) := by
  by_cases hb : batch.isEmpty
  · have hbe : batch = [] := by
      cases batch
      · rfl
      · simp at hb
    subst hbe
    refine ⟨fun h => by simp [dedupeByClientKey] at h, fun _ => by simp [processBatch], ?_⟩
    intro r hr
    simp [dedupeByClientKey] at hr
  · refine ⟨fun h => ?_, fun h => ?_, fun r hr hf => ?_⟩
    · simp only [processBatch]
      rw [if_neg hb]
      show (if (dedupeByClientKey batch).any
          (fun r => failing.contains (r.clientKey.getD "")) = true then
          e + (dedupeByClientKey batch).length else e) = e + (dedupeByClientKey batch).length
      rw [if_pos h]
    · simp only [processBatch]
      rw [if_neg hb]
      show (if (dedupeByClientKey batch).any
          (fun r => failing.contains (r.clientKey.getD "")) = true then
          e + (dedupeByClientKey batch).length else e) = e
      rw [if_neg (by rw [h]; simp)]
    · have hcommit := bulkApply_commits (dedupeByClientKey batch) store failing now
        (dedupe_keys_nodup batch) r hr hf
      simp only [processBatch]
      rw [if_neg hb]
      exact hcommit

/-- C4 (witness). The amended counting rule instantiated at the two-record
batch with one failing key: the error counter jumps by the whole batch size
while the non-failing key is committed. -/
theorem processBatch_error_counting_witness :
    (processBatch (fun _ => none) 0 [recK1, recK2] ["phone:0970000101"] 5).2 = 0 + 2 ∧
    (processBatch (fun _ => none) 0 [recK1, recK2] ["phone:0970000101"] 5).1 "phone:0970000102" =
      some (applyUpsert none recK2 5) := by
  obtain ⟨ha, hb, hc⟩ :=
    processBatch_error_counting (fun _ => none) 0 [recK1, recK2] ["phone:0970000101"] 5
  constructor
  · exact (ha (by decide)).trans (by decide)
  · simpa using hc recK2 (by decide) (by decide)

/-- C9 (counterexample). A raw row with no phone, no email, no name and no
date of birth is NOT rejected: `makeClientKey` always returns a string, here
the degenerate fallback key "name:|dob:nodob", the normalized record carries
that key, and the row flows on through the pipeline (the single-row batch
reaches the bulk write with zero errors counted). -/
theorem keyless_row_counterexample :
    makeClientKey blankRow = "name:|dob:nodob" ∧
    (mapToClientSchema blankRow).clientKey ≠ none ∧
    (processBatch (fun _ => none) 0 [mapToClientSchema blankRow] [] 5).2 = 0 := by
  refine ⟨by decide, by decide, by decide⟩

/-- C9 (amended). A raw row that cannot produce any identity component is not
rejected and counts no error: the normalizer assigns it the shared degenerate
key "name:|dob:nodob" and the deduplicator keeps it like any keyed record
(the rest of the pipeline does continue — by merging it). -/
theorem keyless_row_fallback (row : RawRow)
    (hm : row.borrowerMobile = none) (hl : row.borrowerLandline = none)
    (he : row.borrowerEmail = none) (hf : row.fullName = none)
    (hb : row.borrowerName = none) (hd : row.borrowerDateOfBirthIso = none) :
    makeClientKey row = "name:|dob:nodob" ∧
    dedupeByClientKey [mapToClientSchema row] = [mapToClientSchema row] := by
  have hkey : makeClientKey row = "name:|dob:nodob" := by
    simp only [makeClientKey, normalizePhone, normalizeEmail, jsOrS, hm, hl, he, hf, hb, hd]
    decide
  have hck : (mapToClientSchema row).clientKey = some (makeClientKey row) := rfl
  have hko : keyOf (mapToClientSchema row) = some "name:|dob:nodob" := by
    rw [keyOf, hck, hkey]
    decide
  refine ⟨hkey, ?_⟩
  simp [dedupeByClientKey, dedupeStep, hko, mapGet, mapSet]

/-- C9 (witness). The fallback behaviour at the fully blank row. -/
theorem keyless_row_fallback_witness :
    makeClientKey blankRow = "name:|dob:nodob" ∧
    dedupeByClientKey [mapToClientSchema blankRow] = [mapToClientSchema blankRow] :=
  keyless_row_fallback blankRow rfl rfl rfl rfl rfl rfl

/-- C7 (counterexample). The rebuild route does not use the same identity-key
derivation as the normalizer: for a 260-prefixed mobile the route
canonicalizes to the 0-prefixed local form while `makeClientKey` keeps the
raw digits, yielding different keys for the same row; and a row with neither
phone nor email gets the empty key (skipped) from the route instead of
`makeClientKey`'s name+dob fallback key. -/
theorem rebuild_key_counterexample :
    rebuildKey loanZm = "phone:0978559684" ∧
    makeClientKey (loanAsRawRow loanZm) = "phone:260978559684" ∧
    rebuildKey loanZm ≠ makeClientKey (loanAsRawRow loanZm) ∧
    rebuildKey loanNoContact = "" ∧
    makeClientKey (loanAsRawRow loanNoContact) = "name:ann banda|dob:nodob" := by
  refine ⟨by decide, by decide, by decide, by decide, by decide⟩

/-- C7 (amended). The two key derivations agree exactly on the rows where the
ZM canonicalization is inert: for a loan whose mobile's digit string is
non-empty and a fixed point of `normalizeZMPhone`, the rebuild key equals the
key `makeClientKey` derives for the corresponding raw row; on 260-prefixed or
9-digit renderings the keys differ, and rows with neither phone nor email are
skipped by the rebuilder rather than keyed by name and date of birth. -/
theorem rebuild_key_agreement (loan : LoanRow)
    (hfix : normalizeZMPhone loan.borrowerMobile = digitsOf (loan.borrowerMobile.getD ""))
    (hne : ¬ (digitsOf (loan.borrowerMobile.getD "")).isEmpty = true) :
    rebuildKey loan = makeClientKey (loanAsRawRow loan) := by
  cases hm : loan.borrowerMobile with
  | none =>
    exfalso
    rw [hm] at hne
    exact hne (by decide)
  | some s =>
    rw [hm] at hfix hne
    simp only [Option.getD] at hfix hne
    by_cases hs : s.isEmpty
    · exfalso
      rw [(String.isEmpty_iff s).mp hs] at hne
      exact hne (by decide)
    · have h1 : rebuildKey loan = "phone:" ++ digitsOf s := by
        simp [rebuildKey, hm, hfix, hne]
      have h2 : makeClientKey (loanAsRawRow loan) = "phone:" ++ digitsOf s := by
        simp [makeClientKey, loanAsRawRow, jsOrS, normalizePhone, hm, hs, hne]
      rw [h1, h2]

/-- C7 (witness). A 0-prefixed ten-digit mobile is a fixed point of the ZM
canonicalization, and both derivations give its phone key. -/
theorem rebuild_key_agreement_witness :
    rebuildKey { loanZm with borrowerMobile := some "0978559684" } =
      makeClientKey (loanAsRawRow { loanZm with borrowerMobile := some "0978559684" }) :=
  rebuild_key_agreement { loanZm with borrowerMobile := some "0978559684" }
    (by decide) (by decide)

theorem loanActualBalance_of_unpaid (l : LoanRow) (hs : isUnpaid l)
    (hn : 0 ≤ rowTotal l) : loanActualBalance l = rowTotal l := by
  simp only [loanActualBalance, rowTotal] at *
  rw [if_neg hs]
  rcases lt_or_eq_of_le hn with h | h
  · rw [if_pos h]
  · rw [← h]
    simp

theorem sum_actual_eq_sum_total :
    ∀ (loans : List LoanRow), (∀ l ∈ loans, isUnpaid l) → (∀ l ∈ loans, 0 ≤ rowTotal l) →
      (loans.map loanActualBalance).sum = (loans.map rowTotal).sum
  | [], _, _ => rfl
  | l :: rest, hu, hn => by
    simp only [List.map_cons, List.sum_cons]
    rw [loanActualBalance_of_unpaid l (hu l (by simp)) (hn l (by simp)),
      sum_actual_eq_sum_total rest (fun x hx => hu x (List.mem_cons_of_mem _ hx))
        (fun x hx => hn x (List.mem_cons_of_mem _ hx))]

theorem fillGroup_balance (g : RebuildGroup) (l : LoanRow) (p e : String) :
    (fillGroup g l p e).balance = g.balance + loanActualBalance l := by
  simp only [fillGroup]
  cases himp : l.importedAt <;>
    simp [apply_ite (fun x : RebuildGroup => x.balance)]

theorem fillGroup_clientKey (g : RebuildGroup) (l : LoanRow) (p e : String) :
    (fillGroup g l p e).clientKey = g.clientKey := by
  simp only [fillGroup]
  cases himp : l.importedAt <;>
    simp [apply_ite (fun x : RebuildGroup => x.clientKey)]

theorem rebuildStep_at_key (g : RebuildGroup) (K : String) (l : LoanRow)
    (hk : rebuildKey l = K) (hK : ¬ K.isEmpty = true) (hg : g.clientKey = K) :
    ∃ g2 : RebuildGroup, rebuildStep [(K, g)] l = [(K, g2)] ∧
      g2.balance = g.balance + loanActualBalance l ∧ g2.clientKey = K := by
  have hget : mapGet [(K, g)] K = some g := by simp [mapGet]
  refine ⟨fillGroup g l (normalizeZMPhone l.borrowerMobile) (rebuildLoanEmail l), ?_, ?_, ?_⟩
  · simp only [rebuildStep, hk]
    rw [if_neg hK, hget]
    simp [mapSet, Option.getD]
  · rw [fillGroup_balance]
  · rw [fillGroup_clientKey, hg]

theorem rebuildStep_fresh (K : String) (l : LoanRow)
    (hk : rebuildKey l = K) (hK : ¬ K.isEmpty = true) :
    ∃ g2 : RebuildGroup, rebuildStep [] l = [(K, g2)] ∧
      g2.balance = loanActualBalance l ∧ g2.clientKey = K := by
  refine ⟨fillGroup (initGroup K (normalizeZMPhone l.borrowerMobile) (rebuildLoanEmail l)) l
    (normalizeZMPhone l.borrowerMobile) (rebuildLoanEmail l), ?_, ?_, ?_⟩
  · simp only [rebuildStep, hk]
    rw [if_neg hK]
    simp [mapGet, Option.getD, mapSet]
  · rw [fillGroup_balance]
    simp [initGroup]
  · rw [fillGroup_clientKey]
    rfl

theorem rebuild_fold_single :
    ∀ (loans : List LoanRow) (g : RebuildGroup) (K : String),
      ¬ K.isEmpty = true → g.clientKey = K → (∀ l ∈ loans, rebuildKey l = K) →
      ∃ g2 : RebuildGroup, List.foldl rebuildStep [(K, g)] loans = [(K, g2)] ∧
        g2.balance = g.balance + (loans.map loanActualBalance).sum ∧ g2.clientKey = K
  | [], g, K, _, hg, _ => ⟨g, by simp, by simp, hg⟩
  | l :: rest, g, K, hK, hg, hall => by
    obtain ⟨g1, hstep, hbal1, hck1⟩ := rebuildStep_at_key g K l (hall l (by simp)) hK hg
    obtain ⟨g2, hfold, hbal2, hck2⟩ := rebuild_fold_single rest g1 K hK hck1
      (fun x hx => hall x (List.mem_cons_of_mem _ hx))
    refine ⟨g2, ?_, ?_, hck2⟩
    · rw [List.foldl_cons, hstep, hfold]
    · rw [hbal2, hbal1]
      simp [add_assoc]

/-- C8 (counterexample). For two unpaid loans of one key whose per-row
amortization-due + interest + penalty amounts sum to S = -5, the rebuilt
balance is 5, not S, and the bucket is "balance", not the "cleared" the claim
prescribes for a non-positive S: `loanActualBalance` clamps each row at zero
before summing. -/
theorem rebuild_balance_counterexample :
    ((rebuildFromLoans [loanNeg, loanPos] 99).map
      (fun c => (c.balance, c.statusBucket)) = [(5, "balance")]) ∧
    rowTotal loanNeg + rowTotal loanPos = -5 ∧
    isUnpaid loanNeg ∧ isUnpaid loanPos ∧ ((5 : Int) = -5 → False) := by
  refine ⟨by decide, by decide, by decide, by decide, by decide⟩

/-- C8 (amended). For a raw ledger of unpaid loans for a single identity key
K, each with a non-negative per-row amortization-due + interest + penalty
total, the Rebuilder produces exactly one ConsolidatedClient: key K, balance
the sum S of the per-row totals, and status bucket "balance" when S is
positive, else "cleared".  (Without the non-negativity proviso each row is
clamped at zero first, as the counterexample shows.) -/
theorem rebuild_balance_sum (loans : List LoanRow) (K : String) (now : Int)
    (hK : ¬ K.isEmpty = true)
    (hall : ∀ l ∈ loans, rebuildKey l = K)
    (hunpaid : ∀ l ∈ loans, isUnpaid l)
    (hnonneg : ∀ l ∈ loans, 0 ≤ rowTotal l)
    (hne : loans ≠ []) :
    (rebuildFromLoans loans now).map (fun c => (c.clientKey, c.balance, c.statusBucket)) =
      [(K, (loans.map rowTotal).sum,
        if 0 < (loans.map rowTotal).sum then "balance" else "cleared")] := by
  cases loans with
  | nil => exact absurd rfl hne
  | cons l rest =>
    obtain ⟨g1, hstep, hbal1, hck1⟩ := rebuildStep_fresh K l (hall l (by simp)) hK
    obtain ⟨g2, hfold, hbal2, hck2⟩ := rebuild_fold_single rest g1 K hK hck1
      (fun x hx => hall x (List.mem_cons_of_mem _ hx))
    have hfold2 : List.foldl rebuildStep [] (l :: rest) = [(K, g2)] := by
      rw [List.foldl_cons, hstep, hfold]
    have hS : g2.balance = ((l :: rest).map rowTotal).sum := by
      calc g2.balance = loanActualBalance l + (rest.map loanActualBalance).sum := by
            rw [hbal2, hbal1]
        _ = ((l :: rest).map loanActualBalance).sum := by simp
        _ = ((l :: rest).map rowTotal).sum := sum_actual_eq_sum_total _ hunpaid hnonneg
    simp only [rebuildFromLoans, hfold2]
    simp [mkRebuiltClient, hck2, hS]

/-- C8 (witness). The rebuilt balance rule instantiated at a one-row ledger
with a positive unpaid total of 5. -/
theorem rebuild_balance_sum_witness :
    (rebuildFromLoans [loanPos] 99).map (fun c => (c.clientKey, c.balance, c.statusBucket)) =
      [("phone:0970000201", ([loanPos].map rowTotal).sum,
        if 0 < ([loanPos].map rowTotal).sum then "balance" else "cleared")] :=
  rebuild_balance_sum [loanPos] "phone:0970000201" 99 (by decide) (by decide)
    (by decide) (by decide) (by decide)

end CsvConsolidation
